import Mathlib

/-!
Verification of the meter-reading OCR pipeline (`src/App.tsx`).

The file embeds the pure computational core of the two React components in
`src/App.tsx`:

* the strict reading extractor of the second component's `performOCR`
  (text cleanup, the ordered patterns 1/2/3, and leading-zero formatting);
* the lenient extractor of the first component's `performOCR`
  (primary pattern `\d{1,4}\.\d{3}`, then the longest `\d+\.\d+` token);
* the per-pixel binarization loops (`handleFileChange` and `performOCR`);
* the centered-crop geometry of `performOCR`;
* the React state writes performed by overlapping `performOCR` calls.

JavaScript strings are embedded as `List Char` and regex search as an
explicit leftmost scan. The floating-point brightness arithmetic is embedded
in two ways: the LCD loop's comparison as exact rational arithmetic (its
outcome coincides with the float64 evaluation at every RGB triple — the
threshold is unreachable, see `lcdValue`), while the generic loop's
comparison, whose outcome at weighted-sum-exactly-127 triples is decided by
float64 rounding, is modelled exactly as IEEE-754 double evaluation over
integer-scaled dyadic values (see `genericFloatWhite`).
-/

namespace MeterOCR

/-! ## Strict extractor: text cleanup and the three patterns

`performOCR` (second component) computes
`cleanedText = text.replace(/[^\d,.]/g, '')` and then tries, in order,
`/(\d{7}),(\d)/`, `/(\d{7})(\d)/` and `/(\d{7})[,.]?(\d)?/` on it.
Each pattern is embedded as an anchored matcher (`...At`, matching at the
head of the list) plus a leftmost scan over all start positions, which is
exactly the semantics of JavaScript `String.match` for these patterns
(they contain no constructs needing backtracking other than the greedy
optional parts of pattern 3, handled inside `matchP3At`). -/

/-- `text.replace(/[^\d,.]/g, '')`: keep only digits, commas and periods. -/
def cleanText (text : List Char) : List Char :=
  text.filter (fun c => c.isDigit || c == ',' || c == '.')

/-- Leftmost-match regex search: try the anchored matcher at every start
position, left to right, returning the first success. -/
def searchLeftmost {α : Type} (f : List Char → Option α) : List Char → Option α
  | [] => f []
  | c :: rest =>
    match f (c :: rest) with
    | some r => some r
    | none => searchLeftmost f rest

/-- Anchored matcher for pattern 1, `/(\d{7}),(\d)/`: seven digits, a comma,
one digit; returns (group 1, group 2). -/
def matchP1At : List Char → Option (List Char × Char)
  | c1 :: c2 :: c3 :: c4 :: c5 :: c6 :: c7 :: s :: c8 :: _ =>
    if c1.isDigit && c2.isDigit && c3.isDigit && c4.isDigit && c5.isDigit &&
       c6.isDigit && c7.isDigit && s == ',' && c8.isDigit then
      some ([c1, c2, c3, c4, c5, c6, c7], c8)
    else none
  | _ => none

/-- Anchored matcher for pattern 2, `/(\d{7})(\d)/`: eight consecutive digits;
returns (first seven, eighth). -/
def matchP2At : List Char → Option (List Char × Char)
  | c1 :: c2 :: c3 :: c4 :: c5 :: c6 :: c7 :: c8 :: _ =>
    if c1.isDigit && c2.isDigit && c3.isDigit && c4.isDigit && c5.isDigit &&
       c6.isDigit && c7.isDigit && c8.isDigit then
      some ([c1, c2, c3, c4, c5, c6, c7], c8)
    else none
  | _ => none

/-- Anchored matcher for pattern 3, `/(\d{7})[,.]?(\d)?/`: seven digits, then a
greedy optional separator and a greedy optional digit (group 2 is `none` when
the optional digit matched nothing, i.e. JavaScript `undefined`). -/
def matchP3At : List Char → Option (List Char × Option Char)
  | c1 :: c2 :: c3 :: c4 :: c5 :: c6 :: c7 :: rest =>
    if c1.isDigit && c2.isDigit && c3.isDigit && c4.isDigit && c5.isDigit &&
       c6.isDigit && c7.isDigit then
      some ([c1, c2, c3, c4, c5, c6, c7],
        match rest with
        | [] => none
        | s :: rest2 =>
          if s == ',' || s == '.' then
            match rest2 with
            | [] => none
            | t :: _ => if t.isDigit then some t else none
          else if s.isDigit then some s else none)
    else none
  | _ => none

/-- Which of the three ordered patterns produced the reading. -/
inductive RuleTag
  | A
  | B
  | C
deriving DecidableEq, Repr

/-- The ordered pattern cascade of `performOCR` (lines 448–478): clean the
text, then try pattern 1, pattern 2, pattern 3; first match wins. Returns the
rule that fired together with the matched groups (integer digits, optional
fractional digit), i.e. the data from which the code builds the `reading`
string. -/
def extractRaw (text : List Char) : Option (RuleTag × List Char × Option Char) :=
  let cleaned := cleanText text
  match searchLeftmost matchP1At cleaned with
  | some (d, fr) => some (RuleTag.A, d, some fr)
  | none =>
    match searchLeftmost matchP2At cleaned with
    | some (d, fr) => some (RuleTag.B, d, some fr)
    | none =>
      match searchLeftmost matchP3At cleaned with
      | some (d, fr) => some (RuleTag.C, d, fr)
      | none => none

/-- `reading.split(/[,.]/)`. -/
def splitSep : List Char → List (List Char)
  | [] => [[]]
  | c :: rest =>
    if c == ',' || c == '.' then [] :: splitSep rest
    else
      match splitSep rest with
      | [] => [[c]]
      | p :: ps => (c :: p) :: ps

/-- Leading-zero normalization (lines 480–486):
`intPart.replace(/^0+/, '') || '0'`, then re-append the fractional part after
a comma when it is present and non-empty (JavaScript truthiness of `decPart`).
-/
def formatReading (reading : List Char) : List Char :=
  let parts := splitSep reading
  let intPart := parts.headD []
  let decPart := parts[1]?
  let formattedInt :=
    if (intPart.dropWhile (fun c => c == '0')).isEmpty then ['0']
    else intPart.dropWhile (fun c => c == '0')
  match decPart with
  | some d => if !d.isEmpty then formattedInt ++ ',' :: d else formattedInt
  | none => formattedInt

/-- The full strict-mode extraction of the second component's `performOCR`:
the pattern cascade builds the `reading` string (`` `${p[1]},${p[2]}` `` for
patterns 1/2, and for pattern 3 with or without the optional digit), which is
then normalized; `none` is the `'No reading detected'` outcome. -/
def extractStrict (text : List Char) : Option (List Char) :=
  match extractRaw text with
  | none => none
  | some (_, d, none) => some (formatReading d)
  | some (_, d, some fr) => some (formatReading (d ++ ',' :: [fr]))

/-- `l` starts with at least seven consecutive digits. -/
def sevenDigitsAt (l : List Char) : Bool :=
  ((l.take 7).length == 7) && (l.take 7).all Char.isDigit

/-- `l` contains, at some position, a run of at least seven consecutive
digits. -/
def hasRun7 : List Char → Bool
  | [] => false
  | c :: rest => sevenDigitsAt (c :: rest) || hasRun7 rest

/-! ## Lenient extractor (first component's `performOCR`, lines 48–80)

The first component tries `text.match(/\d{1,4}\.\d{3}/)` and, when that
fails, collects every `\d+\.\d+` token (`text.match(/\d+\.\d+/g)`), sorts
them by descending length with a stable sort, and takes the head — i.e. the
earliest token of maximal length. -/

/-- Anchored matcher for `\d{1,4}\.\d{3}` with exactly `k` leading digits. -/
def matchMeterK (k : ℕ) (l : List Char) : Option (List Char) :=
  if (l.take k).length = k ∧ (l.take k).all Char.isDigit then
    match l.drop k with
    | '.' :: rest =>
      if (rest.take 3).length = 3 ∧ (rest.take 3).all Char.isDigit then
        some (l.take k ++ '.' :: rest.take 3)
      else none
    | _ => none
  else none

/-- Anchored matcher for `/\d{1,4}\.\d{3}/`: the greedy `\d{1,4}` tries four
digits first and backtracks down to one. -/
def matchMeterAt (l : List Char) : Option (List Char) :=
  match matchMeterK 4 l with
  | some m => some m
  | none =>
    match matchMeterK 3 l with
    | some m => some m
    | none =>
      match matchMeterK 2 l with
      | some m => some m
      | none => matchMeterK 1 l

/-- Anchored matcher for one `/\d+\.\d+/` token: a maximal nonempty digit run,
a period, a maximal nonempty digit run (the greedy `\d+` must consume the
whole run, since backtracking would place a digit where the period is
required). Returns the token and the remaining text after it. -/
def matchTokenAt (l : List Char) : Option (List Char × List Char) :=
  if (l.takeWhile Char.isDigit).isEmpty then none
  else
    match l.dropWhile Char.isDigit with
    | s :: rest2 =>
      if s == '.' then
        if (rest2.takeWhile Char.isDigit).isEmpty then none
        else
          some (l.takeWhile Char.isDigit ++ '.' :: rest2.takeWhile Char.isDigit,
            rest2.dropWhile Char.isDigit)
      else none
    | [] => none

/-- One pass of the global `/\d+\.\d+/g` scan: at each position try the
anchored token matcher; on success emit the token and continue after it, on
failure advance one character. The fuel argument only bounds the recursion;
every step consumes at least one character, so fuel `l.length` (as passed by
`scanTokens`) never runs out before the text does. -/
def scanTokensGo (fuel : ℕ) (l : List Char) : List (List Char) :=
  match fuel with
  | 0 => []
  | fuel + 1 =>
    match l with
    | [] => []
    | c :: rest =>
      match matchTokenAt (c :: rest) with
      | some (m, after) => m :: scanTokensGo fuel after
      | none => scanTokensGo fuel rest

/-- All `/\d+\.\d+/g` matches of the text, leftmost to rightmost. -/
def scanTokens (l : List Char) : List (List Char) :=
  scanTokensGo l.length l

/-- Head of the stable descending-length sort
(`sort((a, b) => b.length - a.length)[0]`): the earliest token of maximal
length. -/
def pickLongest (tk : List Char) (tks : List (List Char)) : List Char :=
  tks.foldl (fun best y => if best.length < y.length then y else best) tk

/-- The lenient extraction of the first component's `performOCR`: the first
`/\d{1,4}\.\d{3}/` match if any, else the longest `/\d+\.\d+/` token, else
`none` (`'No reading detected'`). -/
def extractLenient (text : List Char) : Option (List Char) :=
  match searchLeftmost matchMeterAt text with
  | some m => some m
  | none =>
    match scanTokens text with
    | [] => none
    | tk :: tks => some (pickLongest tk tks)

/-! ## Binarizer (per-pixel loops at lines 338–346 and 401–412)

A pixel is one RGBA quadruplet of the `ImageData` byte array; the loops walk
the flat array four bytes at a time. The JavaScript floating-point brightness
arithmetic is embedded as exact rational arithmetic. -/

/-- One RGBA quadruplet of the raster. -/
structure Pixel where
  r : ℕ
  g : ℕ
  b : ℕ
  a : ℕ
deriving DecidableEq, Repr

/-- `newValue` of the LCD loop (`performOCR` lines 401–407): luma weights
0.299/0.587/0.114, contrast 3.0, threshold 160. The exact-rational comparison
agrees with the float64 evaluation at every RGB triple (checked exhaustively
over the 256³ cube): equality `3·(brightness − 128) + 128 = 160` would need
`brightness = 128 + 32/3`, which no multiple of 1/1000 attains, and the
nearest attainable values are far beyond the float evaluation error. -/
def lcdValue (p : Pixel) : ℕ :=
  if 3.0 * ((0.299 * (p.r : ℚ) + 0.587 * (p.g : ℚ) + 0.114 * (p.b : ℚ)) - 128)
      + 128 > 160 then 255 else 0

/-- The LCD loop body: write `newValue` to R, G and B, leave alpha alone. -/
def lcdPixel (p : Pixel) : Pixel :=
  ⟨lcdValue p, lcdValue p, lcdValue p, p.a⟩

/-- Round a natural number to the nearest multiple of `2 ^ s`, ties to the
even multiple — IEEE-754 round-to-nearest-even at bit position `s`. -/
def rne (n s : ℕ) : ℕ :=
  if s = 0 then n
  else
    if n % 2 ^ s < 2 ^ (s - 1) then 2 ^ s * (n / 2 ^ s)
    else if 2 ^ (s - 1) < n % 2 ^ s then 2 ^ s * (n / 2 ^ s) + 2 ^ s
    else if (n / 2 ^ s) % 2 = 0 then 2 ^ s * (n / 2 ^ s)
    else 2 ^ s * (n / 2 ^ s) + 2 ^ s

/-- How many bits of `n` exceed a 53-bit significand (`0` when `n < 2 ^ 53`).
The fuel only bounds the recursion; `64` suffices for every value in this
file. -/
def excessBits (fuel n : ℕ) : ℕ :=
  match fuel with
  | 0 => 0
  | fuel + 1 => if n < 2 ^ 53 then 0 else excessBits fuel (n / 2) + 1

/-- Round a nonnegative dyadic value, given as an integer count of `2 ^ -55`
units, to a float64: keep 53 significand bits, round to nearest, ties to
even. For the in-range normal values of the generic brightness computation
this is exactly IEEE-754 double rounding. -/
def flN (n : ℕ) : ℕ :=
  rne n (excessBits 64 n)

/-- The float64 nearest the literal `0.34`, in units of `2 ^ -55`
(`0.34` rounds to `6124895493223875 * 2 ^ -54`). -/
def c34 : ℕ := 12249790986447750

/-- The float64 value of the literal `0.5` (exact), in units of `2 ^ -55`. -/
def c50 : ℕ := 18014398509481984

/-- The float64 nearest the literal `0.16`, in units of `2 ^ -55`
(`0.16` rounds to `5764607523034235 * 2 ^ -55`). -/
def c16 : ℕ := 5764607523034235

/-- The comparison `0.34 * R + 0.5 * G + 0.16 * B > 127` of the generic loop,
evaluated exactly as JavaScript float64 does: left to right, every product
and sum rounded to the nearest double. All quantities are integer counts of
`2 ^ -55` units, which represent every intermediate value of the computation
exactly; each rounded operation is the correctly-rounded IEEE result. -/
def genericFloatWhite (r g b : ℕ) : Bool :=
  decide (127 * 2 ^ 55 <
    flN (flN (flN (c34 * r) + flN (c50 * g)) + flN (c16 * b)))

/-- `newValue` of the generic loop (`handleFileChange` lines 338–343): luma
weights 0.34/0.5/0.16, threshold 127, no contrast step, and the comparison
`brightness > threshold` evaluated in float64 — at RGB triples whose weighted
sum is exactly 127 the float sum can land just above 127 (e.g. at
(19, 211, 94) it is 127.00000000000001), which an exact-rational `>` would
misrepresent. -/
def genericValue (p : Pixel) : ℕ :=
  if genericFloatWhite p.r p.g p.b then 255 else 0

/-- The generic loop body. -/
def genericPixel (p : Pixel) : Pixel :=
  ⟨genericValue p, genericValue p, genericValue p, p.a⟩

/-- The LCD binarization pass over a raster. -/
def binarizeLCD (img : List Pixel) : List Pixel :=
  img.map lcdPixel

/-- The generic binarization pass over a raster. -/
def binarizeGeneric (img : List Pixel) : List Pixel :=
  img.map genericPixel

/-- The spec's `BinarizationConfig` (§3): luma weights, contrast, threshold. -/
structure BinarizationConfig where
  wr : ℚ
  wg : ℚ
  wb : ℚ
  contrast : ℚ
  threshold : ℚ
deriving DecidableEq, Repr

/-- The *lcd* preset. -/
def lcdConfig : BinarizationConfig :=
  ⟨0.299, 0.587, 0.114, 3.0, 160⟩

/-- The *generic* preset. -/
def genericConfig : BinarizationConfig :=
  ⟨0.34, 0.5, 0.16, 1.0, 127⟩

/-- The spec's §4.2 per-pixel formula, stated for an arbitrary config: white
when `contrast * (brightness - 128) + 128` exceeds the threshold, else black,
alpha passed through. The source loops are compared against this definition.
-/
def binarizeSpecPixel (cfg : BinarizationConfig) (p : Pixel) : Pixel :=
  if cfg.contrast *
      ((cfg.wr * (p.r : ℚ) + cfg.wg * (p.g : ℚ) + cfg.wb * (p.b : ℚ)) - 128)
      + 128 > cfg.threshold then ⟨255, 255, 255, p.a⟩
  else ⟨0, 0, 0, p.a⟩

/-! ## Region selection (`performOCR` lines 383–394) -/

/-- A crop rectangle in pixel coordinates. -/
structure Rect where
  x : ℕ
  y : ℕ
  width : ℕ
  height : ℕ
deriving DecidableEq, Repr

/-- Failure of the geometry stage. -/
inductive RegionFailure
  | invalidDimensions
deriving DecidableEq, Repr

/-- The centered crop of `performOCR` lines 383–386:
`cropWidth = floor(width * 0.75)`, `cropHeight = floor(height * 0.25)`,
`cropX = floor((width - cropWidth) / 2)`, likewise for y. The JavaScript
float products `w * 0.75` and `h * 0.25` are exact (0.75 and 0.25 are binary
fractions), so the floors coincide with natural division by 4. -/
def cropRect (w h : ℕ) : Rect :=
  ⟨(w - 3 * w / 4) / 2, (h - h / 4) / 2, 3 * w / 4, h / 4⟩

/-- Modelled from the spec: §4.1's `select` contract. The crop arithmetic is
the source's (`cropRect`); the `InvalidDimensions` failure branch is the
spec's account of what the source does on a zero-extent crop, where the
browser's `getImageData(cropX, cropY, 0, _)` call at line 389 throws and the
surrounding `catch` aborts the pipeline run. -/
def selectRegion (w h : ℕ) : Except RegionFailure Rect :=
  if (cropRect w h).width = 0 ∨ (cropRect w h).height = 0 then
    Except.error RegionFailure.invalidDimensions
  else Except.ok (cropRect w h)

/-! ## Recognition-request interleaving (`performOCR` lines 358–497)

`performOCR` writes the single `extractedReading` React state slot twice per
call: it clears it on entry (line 360, before awaiting recognition) and
writes the extracted result when recognition resolves (line 489). The
function carries no request identifier: every resolution writes the slot
unconditionally. A trace of overlapping calls is modelled as the sequence of
these writes, identifying each request by an index and its displayed result
with that index. -/

/-- One state write of an overlapping `performOCR` trace. -/
inductive OcrEvent
  | submit (i : ℕ)
  | resolve (i : ℕ)
deriving DecidableEq, Repr

/-- Effect of one write on the `extractedReading` slot: submission clears it
(`setExtractedReading('')`), resolution stores that request's reading
unconditionally. -/
def ocrStep (_s : Option ℕ) : OcrEvent → Option ℕ
  | OcrEvent.submit _ => none
  | OcrEvent.resolve i => some i

/-- The displayed result after a trace of writes. -/
def runOcrEvents (s : Option ℕ) (es : List OcrEvent) : Option ℕ :=
  es.foldl ocrStep s

lemma searchLeftmost_some {α : Type} {f : List Char → Option α} {l : List Char}
    {r : α} (h : searchLeftmost f l = some r) : ∃ l', f l' = some r := by
  induction l with
  | nil => exact ⟨[], h⟩
  | cons c rest ih =>
    rw [searchLeftmost] at h
    cases hf : f (c :: rest) with
    | some x =>
      rw [hf] at h
      exact ⟨c :: rest, hf.trans h⟩
    | none =>
      rw [hf] at h
      exact ih h

lemma matchP1At_spec {l d : List Char} {fr : Char}
    (h : matchP1At l = some (d, fr)) :
    d.all Char.isDigit = true ∧ fr.isDigit = true ∧ sevenDigitsAt l = true := by
  rcases l with _ | ⟨c1, _ | ⟨c2, _ | ⟨c3, _ | ⟨c4, _ | ⟨c5, _ | ⟨c6, _ |
    ⟨c7, _ | ⟨s, _ | ⟨c8, rest⟩⟩⟩⟩⟩⟩⟩⟩⟩ <;>
    simp only [matchP1At, Option.ite_none_right_eq_some, Option.some.injEq,
      Prod.mk.injEq, reduceCtorEq] at h
  obtain ⟨hc, hd, hfr⟩ := h
  subst hd hfr
  simp only [Bool.and_eq_true] at hc
  simp_all [sevenDigitsAt]

lemma matchP2At_spec {l d : List Char} {fr : Char}
    (h : matchP2At l = some (d, fr)) :
    d.all Char.isDigit = true ∧ fr.isDigit = true ∧ sevenDigitsAt l = true := by
  rcases l with _ | ⟨c1, _ | ⟨c2, _ | ⟨c3, _ | ⟨c4, _ | ⟨c5, _ | ⟨c6, _ |
    ⟨c7, _ | ⟨c8, rest⟩⟩⟩⟩⟩⟩⟩⟩ <;>
    simp only [matchP2At, Option.ite_none_right_eq_some, Option.some.injEq,
      Prod.mk.injEq, reduceCtorEq] at h
  obtain ⟨hc, hd, hfr⟩ := h
  subst hd hfr
  simp only [Bool.and_eq_true] at hc
  simp_all [sevenDigitsAt]

lemma matchP3At_spec {l d : List Char} {fr : Option Char}
    (h : matchP3At l = some (d, fr)) :
    d.all Char.isDigit = true ∧ (∀ c, fr = some c → c.isDigit = true) ∧
      sevenDigitsAt l = true := by
  rcases l with _ | ⟨c1, _ | ⟨c2, _ | ⟨c3, _ | ⟨c4, _ | ⟨c5, _ | ⟨c6, _ |
    ⟨c7, rest⟩⟩⟩⟩⟩⟩⟩ <;>
    simp only [matchP3At, Option.ite_none_right_eq_some, Option.some.injEq,
      Prod.mk.injEq, reduceCtorEq] at h
  obtain ⟨hc, hd, hfr⟩ := h
  subst hd
  subst hfr
  simp only [Bool.and_eq_true] at hc
  refine ⟨by simp_all, ?_, by simp_all [sevenDigitsAt]⟩
  intro c hc2
  rcases rest with _ | ⟨s, rest2⟩
  · simp at hc2
  · dsimp only at hc2
    by_cases hs : (s == ',' || s == '.') = true
    · rw [if_pos hs] at hc2
      rcases rest2 with _ | ⟨t, _⟩
      · simp at hc2
      · dsimp only at hc2
        by_cases ht : t.isDigit = true
        · rw [if_pos ht] at hc2
          cases hc2
          exact ht
        · rw [if_neg ht] at hc2
          simp at hc2
    · rw [if_neg hs] at hc2
      by_cases hsd : s.isDigit = true
      · rw [if_pos hsd] at hc2
        cases hc2
        exact hsd
      · rw [if_neg hsd] at hc2
        simp at hc2

lemma searchLeftmost_none_of_no_run {α : Type} {f : List Char → Option α}
    (hf : ∀ l r, f l = some r → sevenDigitsAt l = true) :
    ∀ l, hasRun7 l = false → searchLeftmost f l = none := by
  intro l
  induction l with
  | nil =>
    intro _
    rw [searchLeftmost]
    cases hfl : f [] with
    | none => rfl
    | some r =>
      have := hf [] r hfl
      simp [sevenDigitsAt] at this
  | cons c rest ih =>
    intro h
    rw [hasRun7, Bool.or_eq_false_iff] at h
    rw [searchLeftmost]
    cases hfl : f (c :: rest) with
    | some r =>
      have := hf _ _ hfl
      rw [h.1] at this
      cases this
    | none => exact ih h.2

lemma extractRaw_digits {text : List Char} {tag : RuleTag} {d : List Char}
    {fr : Option Char} (h : extractRaw text = some (tag, d, fr)) :
    d.all Char.isDigit = true ∧ ∀ c, fr = some c → c.isDigit = true := by
  simp only [extractRaw] at h
  cases h1 : searchLeftmost matchP1At (cleanText text) with
  | some p =>
    obtain ⟨d1, fr1⟩ := p
    rw [h1] at h
    dsimp only at h
    simp only [Option.some.injEq, Prod.mk.injEq] at h
    obtain ⟨-, hd, hfr⟩ := h
    subst hd
    obtain ⟨l', hl'⟩ := searchLeftmost_some h1
    have hs := matchP1At_spec hl'
    refine ⟨hs.1, fun c hc => ?_⟩
    rw [← hfr] at hc
    injection hc with hc'
    subst hc'
    exact hs.2.1
  | none =>
    rw [h1] at h
    dsimp only at h
    cases h2 : searchLeftmost matchP2At (cleanText text) with
    | some p =>
      obtain ⟨d2, fr2⟩ := p
      rw [h2] at h
      dsimp only at h
      simp only [Option.some.injEq, Prod.mk.injEq] at h
      obtain ⟨-, hd, hfr⟩ := h
      subst hd
      obtain ⟨l', hl'⟩ := searchLeftmost_some h2
      have hs := matchP2At_spec hl'
      refine ⟨hs.1, fun c hc => ?_⟩
      rw [← hfr] at hc
      injection hc with hc'
      subst hc'
      exact hs.2.1
    | none =>
      rw [h2] at h
      dsimp only at h
      cases h3 : searchLeftmost matchP3At (cleanText text) with
      | some p =>
        obtain ⟨d3, fr3⟩ := p
        rw [h3] at h
        dsimp only at h
        simp only [Option.some.injEq, Prod.mk.injEq] at h
        obtain ⟨-, hd, hfr⟩ := h
        subst hd
        subst hfr
        obtain ⟨l', hl'⟩ := searchLeftmost_some h3
        have hs := matchP3At_spec hl'
        exact ⟨hs.1, hs.2.1⟩
      | none =>
        rw [h3] at h
        dsimp only at h
        exact absurd h (by simp)

lemma isDigit_not_sep {c : Char} (h : c.isDigit = true) :
    (c == ',') = false ∧ (c == '.') = false := by
  constructor
  · cases hcc : (c == ',') with
    | false => rfl
    | true =>
      have := eq_of_beq hcc
      subst this
      exact absurd h (by decide)
  · cases hcc : (c == '.') with
    | false => rfl
    | true =>
      have := eq_of_beq hcc
      subst this
      exact absurd h (by decide)

lemma splitSep_sepFree {d : List Char}
    (hd : ∀ c ∈ d, (c == ',') = false ∧ (c == '.') = false) :
    splitSep d = [d] := by
  induction d with
  | nil => rfl
  | cons c rest ih =>
    have hc := hd c (List.mem_cons_self c rest)
    have ih' := ih (fun x hx => hd x (List.mem_cons_of_mem c hx))
    rw [splitSep, if_neg (by simp [hc.1, hc.2]), ih']

lemma splitSep_append {d ds : List Char}
    (hd : ∀ c ∈ d, (c == ',') = false ∧ (c == '.') = false) :
    splitSep (d ++ ',' :: ds) = d :: splitSep ds := by
  induction d with
  | nil => rw [List.nil_append, splitSep, if_pos (by simp)]
  | cons c rest ih =>
    have hc := hd c (List.mem_cons_self c rest)
    have ih' := ih (fun x hx => hd x (List.mem_cons_of_mem c hx))
    rw [List.cons_append, splitSep, if_neg (by simp [hc.1, hc.2]), ih']

lemma all_digits_sepFree {d : List Char} (hd : d.all Char.isDigit = true) :
    ∀ c ∈ d, (c == ',') = false ∧ (c == '.') = false := by
  rw [List.all_eq_true] at hd
  exact fun c hc => isDigit_not_sep (hd c hc)

lemma formatReading_sepFree {d : List Char} (hd : d.all Char.isDigit = true) :
    formatReading d =
      if (d.dropWhile (fun c => c == '0')).isEmpty then ['0']
      else d.dropWhile (fun c => c == '0') := by
  simp only [formatReading, splitSep_sepFree (all_digits_sepFree hd)]
  rfl

lemma formatReading_with_fr {d : List Char} {fr : Char}
    (hd : d.all Char.isDigit = true) (hfr : fr.isDigit = true) :
    formatReading (d ++ ',' :: [fr]) =
      (if (d.dropWhile (fun c => c == '0')).isEmpty then ['0']
       else d.dropWhile (fun c => c == '0')) ++ ',' :: [fr] := by
  have hfrAll : ([fr].all Char.isDigit) = true := by simp [hfr]
  simp only [formatReading, splitSep_append (all_digits_sepFree hd),
    splitSep_sepFree (all_digits_sepFree hfrAll)]
  rfl

/-- Claim C1: the strict extractor applies the three patterns in order with
first match winning. On cleaned text `"1234567,8"` pattern 1 (rule A, exact
comma separator) fires giving integer part `"1234567"` and fractional digit
`'8'`; on `"12345678"` pattern 2 (rule B, eight contiguous digits) fires with
the same groups; on `"1234567"` pattern 3 (rule C) fires with no fractional
digit. -/
theorem extraction_rule_order :
    extractRaw "1234567,8".data = some (RuleTag.A, "1234567".data, some '8') ∧
    extractRaw "12345678".data = some (RuleTag.B, "1234567".data, some '8') ∧
    extractRaw "1234567".data = some (RuleTag.C, "1234567".data, none) := by
  decide

/-- Claim C3: whenever the cleaned text contains no run of at least seven
consecutive digits, none of the three patterns matches and the strict
extraction yields no reading (`'No reading detected'`). -/
theorem no_digit_run_no_reading :
    ∀ text : List Char, hasRun7 (cleanText text) = false →
      searchLeftmost matchP1At (cleanText text) = none ∧
      searchLeftmost matchP2At (cleanText text) = none ∧
      searchLeftmost matchP3At (cleanText text) = none ∧
      extractStrict text = none := by
  intro text h
  have h1 := searchLeftmost_none_of_no_run
    (fun l r hl => (matchP1At_spec hl).2.2) _ h
  have h2 := searchLeftmost_none_of_no_run
    (fun l r hl => (matchP2At_spec hl).2.2) _ h
  have h3 := searchLeftmost_none_of_no_run
    (fun l r hl => (matchP3At_spec hl).2.2) _ h
  refine ⟨h1, h2, h3, ?_⟩
  rw [extractStrict, extractRaw]
  rw [h1, h2, h3]

/-- Witness for claim C3 at the spec's two example texts, `"abc"` (cleaned to
the empty string) and `"12,3"`. -/
theorem no_digit_run_no_reading_witness :
    (hasRun7 (cleanText "abc".data) = false ∧ extractStrict "abc".data = none) ∧
    (hasRun7 (cleanText "12,3".data) = false ∧
      extractStrict "12,3".data = none) :=
  ⟨⟨by decide, (no_digit_run_no_reading "abc".data (by decide)).2.2.2⟩,
   ⟨by decide, (no_digit_run_no_reading "12,3".data (by decide)).2.2.2⟩⟩

/-- Claim C2: whenever strict-mode extraction produces a reading, leading
zeros are stripped from the integer part (and an all-zero integer part
becomes `"0"`), and the fractional digit, when present, is appended after a
comma separator. -/
theorem leading_zero_normalization :
    ∀ (text : List Char) (tag : RuleTag) (d : List Char) (fr : Option Char),
      extractRaw text = some (tag, d, fr) →
      extractStrict text =
        some ((if (d.dropWhile (fun c => c == '0')).isEmpty then ['0']
               else d.dropWhile (fun c => c == '0')) ++
              (match fr with | some c => [',', c] | none => [])) := by
  intro text tag d fr h
  have hd := extractRaw_digits h
  unfold extractStrict
  rw [h]
  cases fr with
  | none =>
    dsimp only
    rw [formatReading_sepFree hd.1]
    simp
  | some c =>
    dsimp only
    rw [formatReading_with_fr hd.1 (hd.2 c rfl)]

/-- Witness for claim C2 at the spec's example: cleaned text `"0001234,5"`
yields the reading `"1234,5"` (integer part `"1234"`, not `"0001234"`). -/
theorem leading_zero_normalization_witness :
    extractStrict "0001234,5".data = some "1234,5".data := by
  have h := leading_zero_normalization "0001234,5".data RuleTag.A
    "0001234".data (some '5') (by decide)
  exact h.trans (by decide)

lemma length_seven_destruct {α : Type} {l : List α} (h : l.length = 7) :
    ∃ a b c d e f g, l = [a, b, c, d, e, f, g] := by
  rcases l with _ | ⟨a, _ | ⟨b, _ | ⟨c, _ | ⟨d, _ | ⟨e, _ | ⟨f, _ | ⟨g, _ |
    ⟨x, tl⟩⟩⟩⟩⟩⟩⟩⟩ <;>
    simp only [List.length_cons, List.length_nil] at h <;>
    first
      | omega
      | exact ⟨a, b, c, d, e, f, g, rfl⟩

/-- Claim C10: for every 7-digit integer part `D` and digit `F`, the cleaned
texts `D ++ "." ++ F` and `D ++ "," ++ F` yield the same structured reading
(the first through pattern 1, the second through pattern 3, both with integer
part `D` and fractional digit `F`), and the final reading is formatted with a
comma separator. -/
theorem period_separator_same_reading :
    ∀ (D : List Char) (F : Char), D.length = 7 → D.all Char.isDigit = true →
      F.isDigit = true →
      extractRaw (D ++ [',', F]) = some (RuleTag.A, D, some F) ∧
      extractRaw (D ++ ['.', F]) = some (RuleTag.C, D, some F) ∧
      extractStrict (D ++ ['.', F]) = extractStrict (D ++ [',', F]) ∧
      extractStrict (D ++ [',', F]) =
        some ((if (D.dropWhile (fun c => c == '0')).isEmpty then ['0']
               else D.dropWhile (fun c => c == '0')) ++ [',', F]) := by
  intro D F hlen hall hF
  obtain ⟨d1, d2, d3, d4, d5, d6, d7, rfl⟩ := length_seven_destruct hlen
  simp only [List.all_cons, List.all_nil, Bool.and_eq_true, Bool.and_true]
    at hall
  obtain ⟨h1, h2, h3, h4, h5, h6, h7⟩ := hall
  have ecc : ((',' : Char) == ',') = true := by decide
  have epc : (('.' : Char) == ',') = false := by decide
  have epp : (('.' : Char) == '.') = true := by decide
  have ecd : (',' : Char).isDigit = false := by decide
  have epd : ('.' : Char).isDigit = false := by decide
  have hallD : ([d1, d2, d3, d4, d5, d6, d7].all Char.isDigit) = true := by
    simp [h1, h2, h3, h4, h5, h6, h7]
  have hA : extractRaw ([d1, d2, d3, d4, d5, d6, d7] ++ [',', F]) =
      some (RuleTag.A, [d1, d2, d3, d4, d5, d6, d7], some F) := by
    simp [extractRaw, cleanText, List.filter_cons, searchLeftmost, matchP1At,
      h1, h2, h3, h4, h5, h6, h7, hF, ecc, ecd]
  have hC : extractRaw ([d1, d2, d3, d4, d5, d6, d7] ++ ['.', F]) =
      some (RuleTag.C, [d1, d2, d3, d4, d5, d6, d7], some F) := by
    simp [extractRaw, cleanText, List.filter_cons, searchLeftmost, matchP1At,
      matchP2At, matchP3At, h1, h2, h3, h4, h5, h6, h7, hF, epc, epp, epd]
  refine ⟨hA, hC, ?_, ?_⟩
  · unfold extractStrict
    rw [hA, hC]
  · unfold extractStrict
    rw [hA]
    dsimp only
    rw [formatReading_with_fr hallD hF]

/-- Witness for claim C10 at `D = "7654321"`, `F = '9'`: `"7654321.9"` and
`"7654321,9"` extract to the same reading, displayed as `"7654321,9"`. -/
theorem period_separator_same_reading_witness :
    extractRaw ("7654321".data ++ [',', '9']) =
      some (RuleTag.A, "7654321".data, some '9') ∧
    extractRaw ("7654321".data ++ ['.', '9']) =
      some (RuleTag.C, "7654321".data, some '9') ∧
    extractStrict ("7654321".data ++ ['.', '9']) =
      extractStrict ("7654321".data ++ [',', '9']) ∧
    extractStrict ("7654321".data ++ [',', '9']) =
      some ((if (("7654321".data).dropWhile (fun c => c == '0')).isEmpty
             then ['0']
             else ("7654321".data).dropWhile (fun c => c == '0')) ++
            [',', '9']) :=
  period_separator_same_reading "7654321".data '9' (by decide) (by decide)
    (by decide)

lemma lcdPixel_eq_spec (p : Pixel) : lcdPixel p = binarizeSpecPixel lcdConfig p := by
  dsimp only [lcdPixel, lcdValue, binarizeSpecPixel, lcdConfig]
  by_cases h : (3.0 : ℚ) *
      ((0.299 * (p.r : ℚ) + 0.587 * (p.g : ℚ) + 0.114 * (p.b : ℚ)) - 128)
      + 128 > 160
  · rw [if_pos h, if_pos h]
  · rw [if_neg h, if_neg h]

lemma rne_err (n s : ℕ) : rne n s ≤ n + 2 ^ s ∧ n ≤ rne n s + 2 ^ s := by
  unfold rne
  by_cases hs : s = 0
  · rw [if_pos hs]
    subst hs
    norm_num
  · rw [if_neg hs]
    have hQ2 : (2 : ℕ) ^ s = 2 * 2 ^ (s - 1) := by
      conv_lhs => rw [show s = s - 1 + 1 by omega]
      rw [pow_succ]
      ring
    have hdm := Nat.div_add_mod n (2 ^ s)
    have hmod : n % 2 ^ s < 2 ^ s := Nat.mod_lt n (by positivity)
    set H := (2 : ℕ) ^ (s - 1)
    set Q := (2 : ℕ) ^ s
    set q := n / Q
    set r := n % Q
    set E := Q * q with hE
    split_ifs <;> omega

lemma excessBits_le {fuel k n : ℕ} (hk : k ≤ fuel) (hn : n < 2 ^ (53 + k)) :
    excessBits fuel n ≤ k := by
  induction fuel generalizing k n with
  | zero =>
    rw [excessBits]
    exact Nat.zero_le k
  | succ fuel ih =>
    rw [excessBits]
    by_cases h : n < 2 ^ 53
    · rw [if_pos h]
      exact Nat.zero_le k
    · rw [if_neg h]
      cases k with
      | zero => exact absurd hn h
      | succ k' =>
        have hstep : n < 2 ^ (53 + k') * 2 := by
          have he : 53 + (k' + 1) = (53 + k') + 1 := by omega
          rw [he, pow_succ] at hn
          exact hn
        have h1 : n / 2 < 2 ^ (53 + k') := by omega
        have h2 := ih (by omega) h1
        omega

lemma flN_err {n k : ℕ} (hk : k ≤ 64) (hn : n < 2 ^ (53 + k)) :
    flN n ≤ n + 2 ^ k ∧ n ≤ flN n + 2 ^ k := by
  have hs := excessBits_le hk hn
  have he := rne_err n (excessBits 64 n)
  have hp : (2 : ℕ) ^ excessBits 64 n ≤ 2 ^ k :=
    Nat.pow_le_pow_right (by norm_num) hs
  unfold flN
  omega

/-- Away from the exactly-at-threshold plane, the float64 comparison of the
generic loop agrees with the exact comparison `0.34R + 0.5G + 0.16B > 127`
(scaled by 100 to integers): the accumulated rounding error of the five
float operations is at most a few thousand `2 ^ -55` units, far below the
`0.02 = 2 ^ 55 / 50` units separating neighbouring weighted sums. -/
lemma genericFloat_agrees {r g b : ℕ} (hr : r ≤ 255) (hg : g ≤ 255)
    (hb : b ≤ 255) (hne : 34 * r + 50 * g + 16 * b ≠ 12700) :
    (genericFloatWhite r g b = true ↔ 12700 < 34 * r + 50 * g + 16 * b) := by
  unfold genericFloatWhite
  rw [decide_eq_true_eq]
  simp only [c34, c50, c16]
  have p9 : (2 : ℕ) ^ 9 = 512 := by norm_num
  have p10 : (2 : ℕ) ^ 10 = 1024 := by norm_num
  have p55 : (2 : ℕ) ^ 55 = 36028797018963968 := by norm_num
  have pA : (2 : ℕ) ^ (53 + 9) = 4611686018427387904 := by norm_num
  have pB : (2 : ℕ) ^ (53 + 10) = 9223372036854775808 := by norm_num
  have m1 : (12249790986447750 : ℕ) * r ≤ 12249790986447750 * 255 :=
    Nat.mul_le_mul_left _ hr
  have m2 : (18014398509481984 : ℕ) * g ≤ 18014398509481984 * 255 :=
    Nat.mul_le_mul_left _ hg
  have m3 : (5764607523034235 : ℕ) * b ≤ 5764607523034235 * 255 :=
    Nat.mul_le_mul_left _ hb
  have hb1 : (12249790986447750 : ℕ) * r < 2 ^ (53 + 9) := by omega
  have hb2 : (18014398509481984 : ℕ) * g < 2 ^ (53 + 9) := by omega
  have hb3 : (5764607523034235 : ℕ) * b < 2 ^ (53 + 9) := by omega
  obtain ⟨e1a, e1b⟩ := flN_err (by norm_num) hb1
  obtain ⟨e2a, e2b⟩ := flN_err (by norm_num) hb2
  obtain ⟨e3a, e3b⟩ := flN_err (by norm_num) hb3
  have hb4 : flN (12249790986447750 * r) + flN (18014398509481984 * g) <
      2 ^ (53 + 10) := by omega
  obtain ⟨e4a, e4b⟩ := flN_err (by norm_num) hb4
  have hb5 : flN (flN (12249790986447750 * r) + flN (18014398509481984 * g)) +
      flN (5764607523034235 * b) < 2 ^ (53 + 10) := by omega
  obtain ⟨e5a, e5b⟩ := flN_err (by norm_num) hb5
  omega

/-- Off the exactly-at-threshold plane, the generic loop body coincides with
the spec's formula at the generic preset. -/
lemma genericPixel_eq_spec_offPlane {p : Pixel} (hr : p.r ≤ 255)
    (hg : p.g ≤ 255) (hb : p.b ≤ 255)
    (hne : 34 * p.r + 50 * p.g + 16 * p.b ≠ 12700) :
    genericPixel p = binarizeSpecPixel genericConfig p := by
  have hiff := genericFloat_agrees hr hg hb hne
  dsimp only [genericPixel, genericValue, binarizeSpecPixel, genericConfig]
  have key : (1.0 : ℚ) *
      ((0.34 * (p.r : ℚ) + 0.5 * (p.g : ℚ) + 0.16 * (p.b : ℚ)) - 128) + 128
      = 0.34 * (p.r : ℚ) + 0.5 * (p.g : ℚ) + 0.16 * (p.b : ℚ) := by ring
  rw [key]
  have hcast : (0.34 * (p.r : ℚ) + 0.5 * (p.g : ℚ) + 0.16 * (p.b : ℚ)) =
      ((34 * p.r + 50 * p.g + 16 * p.b : ℕ) : ℚ) / 100 := by
    push_cast
    ring
  have hratNat : (0.34 * (p.r : ℚ) + 0.5 * (p.g : ℚ) + 0.16 * (p.b : ℚ) > 127)
      ↔ 12700 < 34 * p.r + 50 * p.g + 16 * p.b := by
    rw [hcast, gt_iff_lt, lt_div_iff₀ (by norm_num : (0 : ℚ) < 100)]
    norm_cast
  by_cases h : genericFloatWhite p.r p.g p.b = true
  · rw [if_pos h, if_pos (hratNat.mpr (hiff.mp h))]
  · rw [if_neg h, if_neg (fun hc => h (hiff.mpr (hratNat.mp hc)))]

/-- Counterexample to claim C4 as stated: at RGB (19, 211, 94) the weighted
sum 0.34·19 + 0.5·211 + 0.16·94 is exactly the threshold 127, so the claim's
formula (`white iff contrast·(brightness − 128) + 128 exceeds the threshold,
black otherwise`) demands pure black — but the float64 sum the generic loop
computes is 127.00000000000001 > 127 and the loop outputs pure white. -/
theorem generic_threshold_float_counterexample :
    (binarizeGeneric [⟨19, 211, 94, 0⟩])[0]? = some ⟨255, 255, 255, 0⟩ ∧
    binarizeSpecPixel genericConfig ⟨19, 211, 94, 0⟩ = ⟨0, 0, 0, 0⟩ ∧
    ((⟨255, 255, 255, 0⟩ : Pixel) ≠ ⟨0, 0, 0, 0⟩) := by
  refine ⟨by decide, ?_, by decide⟩
  unfold binarizeSpecPixel genericConfig
  rw [if_neg (by norm_num)]

/-- Claim C4 as amended: the LCD loop realizes the spec's per-pixel formula
(white exactly when `contrast·(w_r·R + w_g·G + w_b·B − 128) + 128` exceeds
the threshold, alpha passed through) at every pixel; the generic loop
realizes it at every pixel whose weighted sum `0.34R + 0.5G + 0.16B` is not
exactly the threshold 127 — on that boundary plane float64 rounding decides
the comparison and can output white where the formula requires black. -/
theorem binarize_pixel_formula_amended :
    ∀ (img : List Pixel) (i : ℕ) (p : Pixel), img[i]? = some p →
      (binarizeLCD img)[i]? = some (binarizeSpecPixel lcdConfig p) ∧
      (p.r ≤ 255 → p.g ≤ 255 → p.b ≤ 255 →
        34 * p.r + 50 * p.g + 16 * p.b ≠ 12700 →
        (binarizeGeneric img)[i]? = some (binarizeSpecPixel genericConfig p)) := by
  intro img i p h
  constructor
  · rw [binarizeLCD, List.getElem?_map, h, Option.map_some', lcdPixel_eq_spec]
  · intro hr hg hb hne
    rw [binarizeGeneric, List.getElem?_map, h, Option.map_some',
      genericPixel_eq_spec_offPlane hr hg hb hne]

/-- Witness for the amended claim C4 at the one-pixel raster
`[(200, 100, 50, 7)]`, whose weighted sum 126 is off the threshold plane. -/
theorem binarize_pixel_formula_amended_witness :
    (binarizeLCD [⟨200, 100, 50, 7⟩])[0]? =
      some (binarizeSpecPixel lcdConfig ⟨200, 100, 50, 7⟩) ∧
    (binarizeGeneric [⟨200, 100, 50, 7⟩])[0]? =
      some (binarizeSpecPixel genericConfig ⟨200, 100, 50, 7⟩) :=
  ⟨(binarize_pixel_formula_amended [⟨200, 100, 50, 7⟩] 0
      ⟨200, 100, 50, 7⟩ rfl).1,
   (binarize_pixel_formula_amended [⟨200, 100, 50, 7⟩] 0
      ⟨200, 100, 50, 7⟩ rfl).2 (by decide) (by decide) (by decide) (by decide)⟩

lemma lcdValue_cases (p : Pixel) : lcdValue p = 255 ∨ lcdValue p = 0 := by
  unfold lcdValue
  split
  · exact Or.inl rfl
  · exact Or.inr rfl

lemma genericValue_cases (p : Pixel) :
    genericValue p = 255 ∨ genericValue p = 0 := by
  unfold genericValue
  split
  · exact Or.inl rfl
  · exact Or.inr rfl

lemma lcdValue_white (alpha : ℕ) : lcdValue ⟨255, 255, 255, alpha⟩ = 255 := by
  unfold lcdValue
  rw [if_pos (by norm_num)]

lemma lcdValue_black (alpha : ℕ) : lcdValue ⟨0, 0, 0, alpha⟩ = 0 := by
  unfold lcdValue
  rw [if_neg (by norm_num)]

lemma genericValue_white (alpha : ℕ) :
    genericValue ⟨255, 255, 255, alpha⟩ = 255 := by
  unfold genericValue
  dsimp only
  rw [if_pos (show genericFloatWhite 255 255 255 = true by decide)]

lemma genericValue_black (alpha : ℕ) : genericValue ⟨0, 0, 0, alpha⟩ = 0 := by
  unfold genericValue
  dsimp only
  rw [if_neg (show ¬genericFloatWhite 0 0 0 = true by decide)]

lemma lcdPixel_idem (p : Pixel) : lcdPixel (lcdPixel p) = lcdPixel p := by
  show lcdPixel ⟨lcdValue p, lcdValue p, lcdValue p, p.a⟩ =
    ⟨lcdValue p, lcdValue p, lcdValue p, p.a⟩
  rcases lcdValue_cases p with h | h <;> rw [h] <;> unfold lcdPixel <;>
    first
      | rw [lcdValue_white]
      | rw [lcdValue_black]

lemma genericPixel_idem (p : Pixel) :
    genericPixel (genericPixel p) = genericPixel p := by
  show genericPixel ⟨genericValue p, genericValue p, genericValue p, p.a⟩ =
    ⟨genericValue p, genericValue p, genericValue p, p.a⟩
  rcases genericValue_cases p with h | h <;> rw [h] <;> unfold genericPixel <;>
    first
      | rw [genericValue_white]
      | rw [genericValue_black]

/-- Claim C5: binarization is idempotent — re-binarizing an already-binarized
raster with the same config reproduces it pixel for pixel, for both presets:
an all-255 pixel stays white and an all-0 pixel stays black, in the LCD
loop's arithmetic and in the generic loop's float64 arithmetic alike (both
brightness values are far from either threshold). -/
theorem binarize_idempotent :
    ∀ img : List Pixel,
      binarizeLCD (binarizeLCD img) = binarizeLCD img ∧
      binarizeGeneric (binarizeGeneric img) = binarizeGeneric img := by
  intro img
  constructor
  · simp only [binarizeLCD, List.map_map]
    exact List.map_congr_left (fun p _ => lcdPixel_idem p)
  · simp only [binarizeGeneric, List.map_map]
    exact List.map_congr_left (fun p _ => genericPixel_idem p)

/-- Claim C6: on every image for which region selection succeeds, the
returned rectangle has width `floor(0.75 * w)`, height `floor(0.25 * h)`, is
centered on both axes, and lies fully inside the image bounds. -/
theorem crop_rect_contained :
    ∀ (w h : ℕ) (r : Rect), selectRegion w h = Except.ok r →
      r.width = 3 * w / 4 ∧ r.height = h / 4 ∧
      r.x = (w - r.width) / 2 ∧ r.y = (h - r.height) / 2 ∧
      r.x + r.width ≤ w ∧ r.y + r.height ≤ h := by
  intro w h r hr
  unfold selectRegion at hr
  by_cases hc : (cropRect w h).width = 0 ∨ (cropRect w h).height = 0
  · rw [if_pos hc] at hr
    exact absurd hr (by simp)
  · rw [if_neg hc] at hr
    simp only [Except.ok.injEq] at hr
    subst hr
    dsimp only [cropRect]
    refine ⟨rfl, rfl, rfl, rfl, by omega, by omega⟩

/-- Witness for claim C6 at a 100×100 image: the crop is 75×25 at (12, 37)
and is contained in the image. -/
theorem crop_rect_contained_witness :
    selectRegion 100 100 = Except.ok (⟨12, 37, 75, 25⟩ : Rect) ∧
    (⟨12, 37, 75, 25⟩ : Rect).x + (⟨12, 37, 75, 25⟩ : Rect).width ≤ 100 ∧
    (⟨12, 37, 75, 25⟩ : Rect).y + (⟨12, 37, 75, 25⟩ : Rect).height ≤ 100 :=
  ⟨rfl,
   (crop_rect_contained 100 100 ⟨12, 37, 75, 25⟩ rfl).2.2.2.2.1,
   (crop_rect_contained 100 100 ⟨12, 37, 75, 25⟩ rfl).2.2.2.2.2⟩

/-- Claim C7: region selection fails with `InvalidDimensions`, producing no
rectangle, exactly when the computed crop has zero extent, i.e. exactly for
images below the minimum usable size (width ≤ 1 or height ≤ 3). -/
theorem invalid_dimensions_iff :
    ∀ w h : ℕ,
      (selectRegion w h = Except.error RegionFailure.invalidDimensions ↔
        (cropRect w h).width = 0 ∨ (cropRect w h).height = 0) ∧
      ((cropRect w h).width = 0 ∨ (cropRect w h).height = 0 ↔
        w ≤ 1 ∨ h ≤ 3) := by
  intro w h
  constructor
  · unfold selectRegion
    by_cases hc : (cropRect w h).width = 0 ∨ (cropRect w h).height = 0
    · rw [if_pos hc]
      simp [hc]
    · rw [if_neg hc]
      simp [hc]
  · dsimp only [cropRect]
    omega

lemma pickLongest_spec (tk : List Char) (tks : List (List Char)) :
    pickLongest tk tks ∈ tk :: tks ∧
      ∀ y ∈ tk :: tks, y.length ≤ (pickLongest tk tks).length := by
  induction tks generalizing tk with
  | nil => simp [pickLongest]
  | cons y ys ih =>
    obtain ⟨hmem, hmax⟩ := ih (if tk.length < y.length then y else tk)
    have hbase : (if tk.length < y.length then y else tk).length ≤
        (pickLongest (if tk.length < y.length then y else tk) ys).length :=
      hmax _ (List.mem_cons_self _ _)
    constructor
    · show pickLongest (if tk.length < y.length then y else tk) ys ∈
        tk :: y :: ys
      rcases List.mem_cons.mp hmem with h | h
      · rw [h]
        by_cases hc : tk.length < y.length
        · simp [hc]
        · simp [hc]
      · exact List.mem_cons_of_mem _ (List.mem_cons_of_mem _ h)
    · intro z hz
      show z.length ≤
        (pickLongest (if tk.length < y.length then y else tk) ys).length
      rcases List.mem_cons.mp hz with rfl | hz2
      · by_cases hc : z.length < y.length
        · have h2 := hbase
          rw [if_pos hc] at h2 ⊢
          exact le_trans (le_of_lt hc) h2
        · have h2 := hbase
          rw [if_neg hc] at h2 ⊢
          exact h2
      · rcases List.mem_cons.mp hz2 with rfl | hz3
        · by_cases hc : tk.length < z.length
          · have h2 := hbase
            rw [if_pos hc] at h2 ⊢
            exact h2
          · have h2 := hbase
            rw [if_neg hc] at h2 ⊢
            exact le_trans (le_of_not_lt hc) h2
        · exact hmax z (List.mem_cons_of_mem _ hz3)

/-- Counterexample to claim C8 as stated: on the text
`"1.234 56.7891011"` the lenient extractor returns `"1.234"` (the first
`\d{1,4}\.\d{3}` match), although the decimal-point tokens are `"1.234"` and
`"56.7891011"` and the one with the most characters is `"56.7891011"`. -/
theorem lenient_longest_token_counterexample :
    extractLenient "1.234 56.7891011".data = some "1.234".data ∧
    scanTokens "1.234 56.7891011".data = ["1.234".data, "56.7891011".data] ∧
    some "1.234".data ≠ some "56.7891011".data := by
  refine ⟨by decide, by decide, by decide⟩

/-- Claim C8 as amended: the longest-token selection is only the fallback —
when no substring matches the primary pattern `\d{1,4}\.\d{3}` and the
extraction succeeds, the selected reading is a decimal-point token of the
text of maximal total length (the earliest such token on ties). -/
theorem lenient_longest_token_amended :
    ∀ (text m : List Char), searchLeftmost matchMeterAt text = none →
      extractLenient text = some m →
      m ∈ scanTokens text ∧ ∀ tok ∈ scanTokens text, tok.length ≤ m.length := by
  intro text m h1 h2
  unfold extractLenient at h2
  rw [h1] at h2
  dsimp only at h2
  cases hscan : scanTokens text with
  | nil =>
    rw [hscan] at h2
    exact absurd h2 (by simp)
  | cons tk tks =>
    rw [hscan] at h2
    dsimp only at h2
    injection h2 with h2'
    subst h2'
    exact pickLongest_spec tk tks

/-- Witness for the amended claim C8 at `"12.34 567.89"` (no token has three
fractional digits, so the primary pattern fails): the reading `"567.89"` is a
token of maximal length. -/
theorem lenient_longest_token_amended_witness :
    "567.89".data ∈ scanTokens "12.34 567.89".data ∧
    ∀ tok ∈ scanTokens "12.34 567.89".data,
      tok.length ≤ ("567.89".data).length :=
  lenient_longest_token_amended "12.34 567.89".data "567.89".data (by decide)
    (by decide)

/-- Claim C9 concerns a last-submitted-wins guard that the source does not
contain: `performOCR` carries no sequence number, and every resolution writes
the result slot unconditionally. Evaluating the modelled writes on the
claim's own scenario — request 1 submitted, request 2 submitted while 1 is in
flight, request 2 resolves, then request 1 resolves late — the displayed
result is request 1's, not the most recently submitted request 2's. -/
theorem stale_result_overwrites :
    runOcrEvents none
      [OcrEvent.submit 1, OcrEvent.submit 2, OcrEvent.resolve 2,
        OcrEvent.resolve 1] = some 1 ∧ (some 1 : Option ℕ) ≠ some 2 :=
  ⟨rfl, by decide⟩

end MeterOCR
